import Mathlib

namespace DialogueKT

/-! Shallow embedding of src/training.py of the dialogue-kt repository.

Probabilities and tensor entries are rationals, correctness labels are
integers (with -100 the ignore sentinel), and tensors are (nested) lists.
External collaborators - the language-model forward pass, the baseline
architecture forward passes, the sklearn metric primitives and the data
loading layer - enter as explicit function parameters or are modelled from
their documented contracts where a doc comment says so.  The floating-point
logarithm used inside BCE enters as an explicit function parameter, so every
statement about losses holds for the actual floating-point routine as a
special case. -/

/-- The pointwise binary-cross-entropy term -(y*log x + (1-y)*log(1-x)) of
torch.nn.BCELoss, with the logarithm as an explicit parameter. -/
def bceTerm (lg : ℚ → ℚ) (x y : ℚ) : ℚ := -(y * lg x + (1 - y) * lg (1 - x))

/-- torch.nn.BCELoss() with its default mean reduction: mean of the pointwise
terms over the prediction/target vectors. -/
def bceLoss (lg : ℚ → ℚ) (preds targets : List ℚ) : ℚ :=
  (List.zipWith (bceTerm lg) preds targets).sum / (preds.length : ℚ)

/-- The running-counter grouping of get_lmkt_loss_unpacked (training.py lines
162-168): slice the flat per-(turn,KC) probability list into consecutive
per-turn groups of the declared sizes. -/
def sliceGroups (kc_probs : List ℚ) : List ℕ → List (List ℚ)
  | [] => []
  | n :: rest => kc_probs.take n :: sliceGroups (kc_probs.drop n) rest

/-- The (loss, kc_probs_grouped, corr_probs) triple returned by the two LMKT
loss aggregators. -/
structure LMKTLossResult where
  loss : ℚ
  kc_probs_grouped : List (List ℚ)
  corr_probs : List ℚ
deriving DecidableEq

/-- get_lmkt_loss_unpacked (training.py 153-172).  The logit extraction at the
answer position and the two-way True/False softmax (lines 155-160) are the
external language-model collaborator; its per-(turn,KC) output probabilities
enter as the kc_probs argument.  The remaining lines 162-171 are embedded:
group the flat probabilities by the per-turn KC counts, reduce each group by
product, and take BCE loss against the per-turn correctness labels. -/
def get_lmkt_loss_unpacked (lg : ℚ → ℚ) (kc_probs : List ℚ) (num_kcs : List ℕ)
    (labels : List ℚ) : LMKTLossResult :=
  let kc_probs_grouped := sliceGroups kc_probs num_kcs
  let corr_probs := kc_probs_grouped.map List.prod
  { loss := bceLoss lg corr_probs labels
    kc_probs_grouped := kc_probs_grouped
    corr_probs := corr_probs }

/-- Models torch.finfo(model.dtype).min (training.py 177): the large negative
additive-mask value.  Its exact magnitude is irrelevant; only that it is
neither 0 nor 1 matters. -/
def finfo_min : ℚ := -(2 ^ 127)

/-- The in-place rewrite of one attention-mask entry performed by
get_lmkt_loss_packed lines 178-179: first every 0 becomes finfo_min, then
every 1 becomes 0.  Since finfo_min is neither 0 nor 1, the two sequential
masked writes amount to this pointwise map. -/
def invertAttentionEntry (x : ℚ) : ℚ :=
  if x = 0 then finfo_min else if x = 1 then 0 else x

/-- The tensors of one packed LMKT batch that the embedded code reads or
writes: one row per turn, with the per-turn answer-position indices
(last_idxs, one per KC slot, 0 on padded slots), the real KC count, and the
per-turn correctness label. -/
structure LMKTPackedBatch where
  attention_mask : List (List ℚ)
  last_idxs : List (List ℕ)
  num_kcs : List ℕ
  labels : List ℚ
deriving DecidableEq

/-- get_lmkt_loss_packed (training.py 174-195).  model_probs is the external
model forward pass composed with the per-answer-position logit gather and the
two-way softmax (lines 182-187): it receives the already inverted additive
attention mask together with the answer-position grid and returns the
per-turn, per-KC-slot probability grid.  Lines 176-180 mutate the batch in
place (the 0/1 attention mask is overwritten with additive-mask values), so
the updated batch is returned alongside the result.  Lines 189-194 are the
grouping, the masked_scatter that sets probabilities to 1 on padded slots
(those whose last_idxs entry is 0), the product reduction and the BCE loss. -/
def get_lmkt_loss_packed (model_probs : List (List ℚ) → List (List ℕ) → List (List ℚ))
    (lg : ℚ → ℚ) (batch : LMKTPackedBatch) : LMKTLossResult × LMKTPackedBatch :=
  let attention_mask := batch.attention_mask.map (List.map invertAttentionEntry)
  let batch' := { batch with attention_mask := attention_mask }
  let kc_probs := model_probs attention_mask batch'.last_idxs
  let kc_probs_grouped := List.zipWith (fun probs n => probs.take n) kc_probs batch'.num_kcs
  let kc_probs2 := List.zipWith
    (fun probs idxs => List.zipWith (fun p i => if i = 0 then (1 : ℚ) else p) probs idxs)
    kc_probs batch'.last_idxs
  let corr_probs := kc_probs2.map List.prod
  ({ loss := bceLoss lg corr_probs batch'.labels
     kc_probs_grouped := kc_probs_grouped
     corr_probs := corr_probs }, batch')

/-- Python truthiness of the best_val_loss variable in the training loops:
None and 0.0 are falsy. -/
def pyFalsy : Option ℚ → Bool
  | none => true
  | some b => b == 0

/-- The guard of the checkpoint write in train_lmkt / train_baseline
(training.py 253 and 487): save when best_val_loss is falsy or the current
average validation loss is strictly below it. -/
def improves (best : Option ℚ) (v : ℚ) : Bool :=
  pyFalsy best ||
    (match best with
     | none => false
     | some b => decide (v < b))

/-- One epoch of the checkpoint bookkeeping shared by train_lmkt and
train_baseline (training.py 253-257 and 487-491).  The state is
(best_val_loss, index of the epoch whose checkpoint was written last); the
checkpoint path is the same every epoch, so the final persisted checkpoint is
the last one written. -/
def checkpointStep (st : Option ℚ × Option ℕ) (ev : ℕ × ℚ) : Option ℚ × Option ℕ :=
  if improves st.1 ev.2 then (some ev.2, some ev.1) else st

/-- The (best_val_loss, persisted-epoch) state after a full training run with
the given per-epoch average validation losses, starting from
best_val_loss = None and nothing saved. -/
def persistedCheckpoint (val_losses : List ℚ) : Option ℚ × Option ℕ :=
  val_losses.enum.foldl checkpointStep (none, none)

/-- setdefault(dialogue_idx, []).append(idx) on an insertion-ordered
association list (training.py 294). -/
def appendSampleIdx (m : List (ℕ × List ℕ)) (d i : ℕ) : List (ℕ × List ℕ) :=
  if m.any (fun p => p.1 == d) then
    m.map (fun p => if p.1 == d then (p.1, p.2 ++ [i]) else p)
  else m ++ [(d, [i])]

/-- dialogue_idx_to_sample_idxs as built by the test_lmkt evaluation loop
(training.py 291-294): batches is the per-batch list of dialogue indices of
its samples, and for batch number batch_idx and in-batch sample number
sample_idx the recorded position is batch_idx + sample_idx. -/
def dialogueIdxToSampleIdxs (batches : List (List ℕ)) : List (ℕ × List ℕ) :=
  batches.enum.foldl
    (fun m bi => bi.2.enum.foldl (fun m' si => appendSampleIdx m' si.2 (bi.1 + si.1)) m) []

/-- The flattened prediction stream all_preds of test_lmkt (training.py 299):
per-batch correctness probabilities concatenated in batch order. -/
def allPredsStream (pred_batches : List (List ℚ)) : List ℚ := pred_batches.flatten

/-- final_turn_preds (training.py 307): for each dialogue in the recorded
mapping, the prediction at the last recorded sample position (idxs[-1]). -/
def finalTurnPreds (dia_batches : List (List ℕ)) (pred_batches : List (List ℚ)) : List ℚ :=
  (dialogueIdxToSampleIdxs dia_batches).map
    (fun p => (allPredsStream pred_batches).getD ((p.2.getLast?).getD 0) 0)

/-- numpy round (np.round with no decimals): round half to even. -/
def npRound (q : ℚ) : ℤ :=
  let f := ⌊q⌋
  if q - f > 1/2 then f + 1
  else if q - f < 1/2 then f
  else if f % 2 = 0 then f else f + 1

/-- sklearn accuracy_score: the fraction of positions where the label equals
the hard (rounded) prediction. -/
def accuracy_score (labels hard_preds : List ℤ) : ℚ :=
  (List.zipWith (fun a b => if a = b then (1 : ℚ) else 0) labels hard_preds).sum /
    (labels.length : ℚ)

/-- Whether only one class is present in a label vector (the degenerate case
on which sklearn roc_auc_score raises). -/
def singleClass (labels : List ℤ) : Bool := labels.all (fun l => l == labels.headD 0)

/-- One Mann-Whitney pair contribution to AUC: 1 when the positive-class
prediction exceeds the negative-class one, 1/2 on ties, 0 otherwise. -/
def aucPair (p n : ℚ) : ℚ := if n < p then 1 else if p = n then 1/2 else 0

/-- The message of the ValueError sklearn raises on a single-class label
vector. -/
def rocAucValueError : String :=
  "ValueError: Only one class present in y_true. ROC AUC score is not defined in that case."

/-- sklearn roc_auc_score on binary labels: raises ValueError when only one
class is present, otherwise the Mann-Whitney statistic over raw
probabilities. -/
def roc_auc_score (labels : List ℤ) (preds : List ℚ) : Except String ℚ :=
  if singleClass labels then
    Except.error rocAucValueError
  else
    let pairs := labels.zip preds
    let pos := (pairs.filter (fun x => x.1 == 1)).map Prod.snd
    let neg := (pairs.filter (fun x => x.1 != 1)).map Prod.snd
    Except.ok ((pos.map (fun p => (neg.map (fun n => aucPair p n)).sum)).sum /
      ((pos.length : ℚ) * (neg.length : ℚ)))

/-- sklearn precision_recall_fscore_support on hard predictions with
average="binary" (positive class 1), returning (precision, recall, f1);
zero-denominator cases yield 0. -/
def precision_recall_fscore (labels hard_preds : List ℤ) : ℚ × ℚ × ℚ :=
  let tp := (((List.zipWith (fun l h => l == 1 && h == 1) labels hard_preds).count true : ℕ) : ℚ)
  let fp := (((List.zipWith (fun l h => l != 1 && h == 1) labels hard_preds).count true : ℕ) : ℚ)
  let fnc := (((List.zipWith (fun l h => l == 1 && h != 1) labels hard_preds).count true : ℕ) : ℚ)
  let prec := if tp + fp = 0 then 0 else tp / (tp + fp)
  let recl := if tp + fnc = 0 then 0 else tp / (tp + fnc)
  let f1 := if prec + recl = 0 then 0 else 2 * prec * recl / (prec + recl)
  (prec, recl, f1)

/-- compute_metrics (training.py 126-131): threshold predictions by rounding,
then accuracy, AUC on the raw probabilities, and binary
precision/recall/f1, all scaled to percentage points.  The ValueError sklearn raises on a
single-class label vector propagates - there is no handler anywhere in the
function. -/
def compute_metrics (labels : List ℤ) (preds : List ℚ) :
    Except String (ℚ × ℚ × ℚ × ℚ × ℚ) := do
  let hard_preds := preds.map npRound
  let acc := accuracy_score labels hard_preds
  let auc ← roc_auc_score labels preds
  let prf := precision_recall_fscore labels hard_preds
  return (acc * 100, auc * 100, prf.1 * 100, prf.2.1 * 100, prf.2.2 * 100)

/-- compute_all_metrics (training.py 133-148): composes exactly two
compute_metrics calls - one over every evaluated turn, one over final turns
only - and writes the formatted report to a results file (the report write is
file output carrying no data back to the caller; the loss argument only flows
into that report).  Any sklearn error propagates unhandled. -/
def compute_all_metrics (loss : ℚ) (all_labels : List ℤ) (all_preds : List ℚ)
    (final_turn_labels : List ℤ) (final_turn_preds : List ℚ) :
    Except String ((ℚ × ℚ × ℚ × ℚ × ℚ) × (ℚ × ℚ × ℚ × ℚ × ℚ)) := do
  let _ := loss
  let all_metrics ← compute_metrics all_labels all_preds
  let final_metrics ← compute_metrics final_turn_labels final_turn_preds
  return (all_metrics, final_metrics)

/-- A metric 5-tuple flattened in order (the * unpacking in training.py 324
and 555). -/
def metricsToList (m : ℚ × ℚ × ℚ × ℚ × ℚ) : List ℚ :=
  [m.1, m.2.1, m.2.2.1, m.2.2.2.1, m.2.2.2.2]

/-- The vector np.array([loss, *all_metrics, *final_metrics]) returned by
test_lmkt (training.py 324) and test_baseline (training.py 555). -/
def testReturnVector (loss : ℚ) (all_metrics final_metrics : ℚ × ℚ × ℚ × ℚ × ℚ) : List ℚ :=
  loss :: (metricsToList all_metrics ++ metricsToList final_metrics)

/-- The batch invariant of one packed row: the probability row and the
answer-position row have equal length, the first num_kcs probabilities are
the turn's real per-KC probabilities ps, real slots carry a nonzero
answer-position index, and padded slots (at and beyond num_kcs) carry
index 0.  This is the invariant the packed collator establishes and that
get_lmkt_loss_packed's masked_scatter relies on. -/
def packedRowOK (p : List ℚ) (idxs : List ℕ) (ps : List ℚ) : Bool :=
  p.length == idxs.length && p.take ps.length == ps &&
    (idxs.take ps.length).all (fun i => i != 0) && (idxs.drop ps.length).all (fun i => i == 0)

/-- The packed-batch invariant: row-by-row packedRowOK between the
probability grid, the answer-position grid and the underlying per-turn
probability groups. -/
def packedBatchOK : List (List ℚ) → List (List ℕ) → List (List ℚ) → Bool
  | [], [], [] => true
  | p :: ps, i :: is2, g :: gs => packedRowOK p i g && packedBatchOK ps is2 gs
  | _, _, _ => false

/-- Simultaneous three-list zipWith, mirroring elementwise tensor operations
over (batch, turn) grids. -/
def zipWith3 {α β γ δ : Type} (f : α → β → γ → δ) : List α → List β → List γ → List δ
  | a :: la, b :: lb, c :: lc => f a b c :: zipWith3 f la lb lc
  | _, _, _ => []

/-- The tensors of one baseline (DKT-family) batch that the embedded code
reads or writes: per (dialogue-row, turn) the KC identifier slots (padded to
the per-batch maximum), the real KC count, the correctness label (-100 where
ignored), and - for the flattened architectures - the flat index of the last
KC of each turn. -/
structure BaselineBatch where
  kc_ids : List (List (List ℕ))
  num_kcs : List (List ℕ)
  labels : List (List ℤ)
  turn_end_idxs : List (List ℕ)
deriving DecidableEq

/-- get_baseline_loss (training.py 341-356).  y is the per-(row, turn)
per-KC-identifier probability tensor produced by the architecture (external);
the embedded lines drop the last turn's output (it predicts nothing), gather
each output row at the NEXT turn's KC identifiers, overwrite padded KC slots
(those at positions at or beyond the next turn's real KC count, the broadcast
arange mask) with probability 1, reduce each turn by product, and take BCE
loss over exactly the flattened positions whose next-turn label is not the
ignore sentinel -100. -/
def get_baseline_loss (lg : ℚ → ℚ) (y : List (List (List ℚ))) (batch : BaselineBatch) :
    ℚ × List (List ℚ) :=
  let yShift := y.map List.dropLast
  let kc_probs := zipWith3
    (fun yb idsb nb =>
      zipWith3
        (fun yt ids n =>
          List.mapIdx (fun k p => if n ≤ k then (1 : ℚ) else p)
            (ids.map (fun id => yt.getD id 0)))
        yb (idsb.drop 1) (nb.drop 1))
    yShift batch.kc_ids batch.num_kcs
  let corr_probs := kc_probs.map (fun r => r.map List.prod)
  let labels_flat := (batch.labels.map (fun r => r.drop 1)).flatten
  let sel := (labels_flat.zip corr_probs.flatten).filter (fun p => p.1 != -100)
  (bceLoss lg (sel.map Prod.snd) (sel.map (fun p => ((p.1 : ℤ) : ℚ))), corr_probs)

/-- The overall maximum of a turn-end index tensor (torch .max().item()
applied before clipping). -/
def tensorMax (t : List (List ℕ)) : ℕ := t.flatten.foldl Nat.max 0

/-- select_flat_baseline_out_vectors (training.py 332-339).  With the shift
flag set it first overwrites the batch's turn_end_idxs in place with the
incremented indices clipped at the tensor's previous maximum, then gathers
each row's output vectors at the (possibly shifted) turn-end indices.  The
updated batch is returned alongside the gathered vectors. -/
def select_flat_baseline_out_vectors (y : List (List (List ℚ))) (batch : BaselineBatch)
    (shift_turn_end_idxs : Bool) : List (List (List ℚ)) × BaselineBatch :=
  let shifted :=
    batch.turn_end_idxs.map
      (fun r => r.map (fun i => Nat.min (i + 1) (tensorMax batch.turn_end_idxs)))
  let batch' :=
    if shift_turn_end_idxs then { batch with turn_end_idxs := shifted } else batch
  (List.zipWith (fun yb idxs => idxs.map (fun i => yb.getD i [])) y batch'.turn_end_idxs,
   batch')

/-- The supported baseline architecture identifiers (training.py 329). -/
def BASELINE_MODELS : List String :=
  ["dkt-multi", "dkt-sem", "dkt", "akt", "dkvmn", "saint", "simplekt"]

/-- A tag per constructible baseline architecture; the constructions
themselves (pykt models, embedding sizes, output-layer surgery) are
external. -/
inductive BaselineModelTag
  | dktMulti | dktSem | dkt | akt | dkvmn | saint | simplekt
deriving DecidableEq

/-- get_baseline_model (training.py 358-385): dispatch on the model-type
string, raising Exception("Model ... not supported") for any identifier
outside the supported set. -/
def get_baseline_model (model_type : String) : Except String BaselineModelTag :=
  if model_type = "dkt-multi" then Except.ok BaselineModelTag.dktMulti
  else if model_type = "dkt-sem" then Except.ok BaselineModelTag.dktSem
  else if model_type = "dkt" then Except.ok BaselineModelTag.dkt
  else if model_type = "akt" then Except.ok BaselineModelTag.akt
  else if model_type = "dkvmn" then Except.ok BaselineModelTag.dkvmn
  else if model_type = "saint" then Except.ok BaselineModelTag.saint
  else if model_type = "simplekt" then Except.ok BaselineModelTag.simplekt
  else Except.error ("Model " ++ model_type ++ " not supported")

/-- compute_baseline_loss (training.py 387-423).  The architecture forward
passes are external: the model output tensor enters as model_y, and the
auxiliary rasch regularization loss returned by AKT as rasch_loss.  The
multi-KC architectures consume the output directly; the flattened
architectures first select output vectors per turn-end index, with the
shift-by-one flag set for akt, dkvmn, saint and simplekt; AKT additionally
adds its rasch loss.  Any other identifier raises
Exception("Model ... not supported").  The (possibly mutated) batch is
returned since the shift overwrites turn_end_idxs. -/
def compute_baseline_loss (lg : ℚ → ℚ) (model_y : List (List (List ℚ))) (rasch_loss : ℚ)
    (model_type : String) (batch : BaselineBatch) :
    Except String ((ℚ × List (List ℚ)) × BaselineBatch) :=
  if model_type = "dkt-multi" then
    Except.ok (get_baseline_loss lg model_y batch, batch)
  else if model_type = "dkt-sem" then
    Except.ok (get_baseline_loss lg model_y batch, batch)
  else if model_type = "dkt" then
    let r := select_flat_baseline_out_vectors model_y batch false
    Except.ok (get_baseline_loss lg r.1 r.2, r.2)
  else if model_type = "akt" then
    let r := select_flat_baseline_out_vectors model_y batch true
    let lc := get_baseline_loss lg r.1 r.2
    Except.ok ((lc.1 + rasch_loss, lc.2), r.2)
  else if model_type = "dkvmn" then
    let r := select_flat_baseline_out_vectors model_y batch true
    Except.ok (get_baseline_loss lg r.1 r.2, r.2)
  else if model_type = "saint" then
    let r := select_flat_baseline_out_vectors model_y batch true
    Except.ok (get_baseline_loss lg r.1 r.2, r.2)
  else if model_type = "simplekt" then
    let r := select_flat_baseline_out_vectors model_y batch true
    Except.ok (get_baseline_loss lg r.1 r.2, r.2)
  else Except.error ("Model " ++ model_type ++ " not supported")

/-- The four accumulator lists of the test_baseline evaluation loop
(training.py 527-530). -/
structure TestAccum where
  all_labels : List ℤ
  all_preds : List ℚ
  final_turn_labels : List ℤ
  final_turn_preds : List ℚ
deriving DecidableEq

/-- torch integer indexing with a possibly negative index (negative indices
wrap from the end), as used with mask.sum(dim=1) - 1. -/
def tIndex {α : Type} (row : List α) (d : α) (i : ℤ) : α :=
  if 0 ≤ i then row.getD i.toNat d else row.getD (row.length - (-i).toNat) d

/-- The accumulation body of one test_baseline loop iteration (training.py
544-549): labels is the batch's label tensor minus its first turn and
corr_probs the matching prediction tensor; all-turn arrays take the
row-major flattening restricted to non-ignored labels, and final-turn arrays
index each row at (count of its non-ignored labels) - 1. -/
def testBaselineBatchAccum (labels : List (List ℤ)) (corr_probs : List (List ℚ))
    (acc : TestAccum) : TestAccum :=
  let pairs := (labels.flatten.zip corr_probs.flatten).filter (fun p => p.1 != -100)
  let final_idxs := labels.map (fun r => ((r.filter (fun l => l != -100)).length : ℤ) - 1)
  { all_labels := acc.all_labels ++ pairs.map Prod.fst
    all_preds := acc.all_preds ++ pairs.map Prod.snd
    final_turn_labels := acc.final_turn_labels ++
      List.zipWith (fun r i => tIndex r 0 i) labels final_idxs
    final_turn_preds := acc.final_turn_preds ++
      List.zipWith (fun r i => tIndex r 0 i) corr_probs final_idxs }

/-- The crash message of the unbound local variable read at training.py 543
when no dispatch arm assigned loss. -/
def nameErrorLoss : String :=
  "UnboundLocalError: local variable loss referenced before assignment"

/-- One iteration of the test_baseline evaluation loop (training.py 532-549)
around its model dispatch: a trained baseline model is used when model_type
is in BASELINE_MODELS (the forward pass entering as model_y / rasch_loss),
the random policy fills predictions with the supplied torch random_(0, 2)
draws, the majority policy fills them with the dataset majority class, and
any other identifier reaches total_loss += loss.item() with loss never
assigned. -/
def test_baseline_step (lg : ℚ → ℚ) (model_y : List (List (List ℚ))) (rasch_loss : ℚ)
    (random_vals : List (List ℚ)) (majority : ℚ) (model_type : String)
    (batch : BaselineBatch) (acc : TestAccum) : Except String (ℚ × TestAccum) :=
  let labels := batch.labels.map (fun r => r.drop 1)
  if model_type ∈ BASELINE_MODELS then
    (compute_baseline_loss lg model_y rasch_loss model_type batch).map
      (fun r => (r.1.1, testBaselineBatchAccum labels r.1.2 acc))
  else if model_type = "random" then
    Except.ok (0, testBaselineBatchAccum labels random_vals acc)
  else if model_type = "majority" then
    Except.ok
      (0, testBaselineBatchAccum labels (labels.map (fun r => r.map (fun _ => majority))) acc)
  else Except.error nameErrorLoss

/-- Modelled from the spec: the majority_class attribute of the external
DKTDataset (kt_data_loading, not under src/) - the majority correctness
class over the labels of the data the dataset was constructed from, per the
spec's description of the majority policy as a constant prediction equal to
a majority class.  Ignore-sentinel labels are excluded; ties go to class 1. -/
def majority_class (df_labels : List ℤ) : ℤ :=
  let valid := df_labels.filter (fun l => l != -100)
  if valid.length ≤ 2 * valid.count 1 then 1 else 0

/-- test_baseline under the majority policy (training.py 495-549): the fill
value is the majority class of the TEST dataset (test_dataset is constructed
from test_df at line 522 and line 541 reads test_dataset.majority_class), and
every batch's predictions are a constant tensor of that value. -/
def test_baseline_majority (batches : List (List (List ℤ))) : TestAccum :=
  let majority : ℚ := ((majority_class batches.flatten.flatten : ℤ) : ℚ)
  batches.foldl
    (fun acc rows =>
      let labels := rows.map (fun r => r.drop 1)
      testBaselineBatchAccum labels (labels.map (fun r => r.map (fun _ => majority))) acc)
    ⟨[], [], [], []⟩

/-- A concrete packed batch for the C2 witness: two turns, KC counts 2 and 1,
padded to three KC slots per sequence. -/
def c2batch : LMKTPackedBatch := ⟨[[1, 0]], [[3, 4, 0], [6, 0, 0]], [2, 1], [1, 0]⟩

/-- A constant stand-in for the model-and-softmax collaborator of the C2
witness. -/
def c2mp : List (List ℚ) → List (List ℕ) → List (List ℚ) := fun _ _ => [[2, 0, 5], [3, 7, 9]]

/-- The underlying per-turn KC probability groups of the C2 witness. -/
def c2g : List (List ℚ) := [[2, 0], [3]]

/-- The clipped-increment rewrite of the whole turn-end tensor (the torch
expression torch.clip(idxs + 1, max=idxs.max())). -/
def shiftTurnEnd (t : List (List ℕ)) : List (List ℕ) :=
  t.map (List.map (fun x => Nat.min (x + 1) (tensorMax t)))

/-- Claim C1.  For a test set whose dialogues have varying turn counts the
final-turn prediction array must hold, per dialogue, the prediction of that
dialogue's last turn, via a mapping of global ordinal positions in the
flattened prediction stream, for every batch size.  Code-bug evaluation: with
batch size 2 and two batches (batch 0 holding both turns of dialogue 0,
batch 1 both turns of dialogue 1, prediction stream
[1, 2, 3, 4]), the recorded positions for dialogue 1 are
batch_idx + sample_idx = [1, 2] instead of the global [2, 3], so the
extracted final-turn predictions are [2, 3] and not the per-dialogue
last predictions [2, 4]. -/
theorem claimC1 :
    finalTurnPreds [[0, 0], [1, 1]] [[1, 2], [3, 4]] = [2, 3] ∧
    finalTurnPreds [[0, 0], [1, 1]] [[1, 2], [3, 4]] ≠ [2, 4] := by
  constructor
  · decide
  · decide

/-- Claim C3.  The claim states that the persisted checkpoint is the
epoch-by-epoch argmin of the validation losses (ties keeping the earliest)
and that a write happens exactly at the first epoch or on strict improvement.
Code-bug evaluation: the guard is the Python truthiness test
(not best_val_loss or avg_val_loss < best_val_loss), and 0.0 is falsy, so
with validation losses [0, 5] the second epoch is written (and persisted)
even though its loss 5 is strictly worse than the recorded best 0: the final
state is best_val_loss = 5 with epoch 1 persisted, not the argmin epoch 0. -/
theorem claimC3 :
    persistedCheckpoint [0, 5] = (some 5, some 1) ∧
    (persistedCheckpoint [0, 5]).2 ≠ some 0 := by
  constructor
  · decide
  · decide

/-- Concrete evaluation of compute_metrics on the two-class vector used by
the C6 example inputs. -/
lemma compute_metrics_eval01 :
    compute_metrics [0, 1] [0, 1] = Except.ok (100, 100, 100, 100, 100) := by
  norm_num [compute_metrics, roc_auc_score, singleClass, accuracy_score,
    precision_recall_fscore, npRound, aucPair, Bind.bind, Except.bind, pure, Except.pure]

/-- Claim C9.  For every label vector containing only a single class, the AUC
failure raised inside compute_metrics propagates unchanged to its caller:
compute_metrics returns the sklearn ValueError, and compute_all_metrics
(whose first compute_metrics call receives that vector) forwards the very
same error - no path in either function catches, masks or substitutes a
sentinel for it. -/
theorem claimC9 (labels : List ℤ) (preds : List ℚ) (c : ℤ)
    (hne : labels ≠ []) (hc : ∀ l ∈ labels, l = c) :
    compute_metrics labels preds = Except.error rocAucValueError ∧
    ∀ loss final_turn_labels final_turn_preds,
      compute_all_metrics loss labels preds final_turn_labels final_turn_preds =
        Except.error rocAucValueError := by
  have hsc : singleClass labels = true := by
    cases labels with
    | nil => simp at hne
    | cons a t =>
      have ha : a = c := hc a (by simp)
      simp only [singleClass, List.headD_cons, List.all_eq_true, beq_iff_eq]
      intro l hl
      rw [hc l hl, ha]
  have h1 : compute_metrics labels preds = Except.error rocAucValueError := by
    simp [compute_metrics, roc_auc_score, hsc, Bind.bind, Except.bind]
  refine ⟨h1, fun loss fl fp => ?_⟩
  simp [compute_all_metrics, h1, Bind.bind, Except.bind]

/-- Witness for claim C9 at a concrete single-class input. -/
theorem claimC9_witness :
    ([1, 1] : List ℤ) ≠ [] ∧ (∀ l ∈ ([1, 1] : List ℤ), l = 1) ∧
    compute_metrics [1, 1] [0, 1] = Except.error rocAucValueError :=
  ⟨by decide, by decide, (claimC9 [1, 1] [0, 1] 1 (by decide) (by decide)).1⟩

/-- Claim C6, counterexample.  The claim says the caller returns the flat
vector [loss, acc, auc, prec, rec, f1] twice; the code returns
np.array([loss, *all_metrics, *final_metrics]) where each metric tuple has
five entries (no loss), so the vector has 11 entries with the loss appearing
exactly once - never 12 as the repeated six-entry block would require. -/
theorem claimC6_counterexample :
    compute_all_metrics 7 [0, 1] [0, 1] [0, 1] [0, 1] =
      Except.ok ((100, 100, 100, 100, 100), (100, 100, 100, 100, 100)) ∧
    testReturnVector 7 (100, 100, 100, 100, 100) (100, 100, 100, 100, 100) =
      [7, 100, 100, 100, 100, 100, 100, 100, 100, 100, 100] ∧
    (∀ loss m1 m2, (testReturnVector loss m1 m2).length ≠ 12) := by
  refine ⟨?_, rfl, fun loss m1 m2 => by simp [testReturnVector, metricsToList]⟩
  simp [compute_all_metrics, compute_metrics_eval01, Bind.bind, Except.bind, pure, Except.pure]

/-- Claim C6, amended: compute_all_metrics composes exactly the two
compute_metrics calls (all turns then final turns) and writes the report; the
caller returns the flat 11-entry vector [loss] ++ [acc, auc, prec, rec, f1]
for all turns ++ [acc, auc, prec, rec, f1] for final turns - the loss appears
once, not repeated with the final-turn block. -/
theorem claimC6 (loss : ℚ) (al : List ℤ) (ap : List ℚ) (fl : List ℤ) (fp : List ℚ)
    (m1 m2 : ℚ × ℚ × ℚ × ℚ × ℚ)
    (h1 : compute_metrics al ap = Except.ok m1)
    (h2 : compute_metrics fl fp = Except.ok m2) :
    compute_all_metrics loss al ap fl fp = Except.ok (m1, m2) ∧
    testReturnVector loss m1 m2 = loss :: (metricsToList m1 ++ metricsToList m2) ∧
    (testReturnVector loss m1 m2).length = 11 := by
  refine ⟨?_, rfl, by simp [testReturnVector, metricsToList]⟩
  simp [compute_all_metrics, h1, h2, Bind.bind, Except.bind, pure, Except.pure]

/-- Witness for claim C6 at a concrete two-class input. -/
theorem claimC6_witness :
    compute_metrics [0, 1] [0, 1] = Except.ok (100, 100, 100, 100, 100) ∧
    compute_all_metrics 7 [0, 1] [0, 1] [0, 1] [0, 1] =
      Except.ok ((100, 100, 100, 100, 100), (100, 100, 100, 100, 100)) ∧
    (testReturnVector 7 (100, 100, 100, 100, 100) (100, 100, 100, 100, 100)).length = 11 :=
  ⟨compute_metrics_eval01,
   (claimC6 7 [0, 1] [0, 1] [0, 1] [0, 1] (100, 100, 100, 100, 100) (100, 100, 100, 100, 100)
     compute_metrics_eval01 compute_metrics_eval01).1,
   (claimC6 7 [0, 1] [0, 1] [0, 1] [0, 1] (100, 100, 100, 100, 100) (100, 100, 100, 100, 100)
     compute_metrics_eval01 compute_metrics_eval01).2.2⟩

/-- Masking with everywhere-nonzero answer positions leaves a probability
row unchanged. -/
lemma zipWith_mask_nonzero (a : List ℚ) (c : List ℕ) (hlen : a.length = c.length)
    (h : ∀ i ∈ c, i ≠ 0) :
    List.zipWith (fun q i => if i = 0 then (1 : ℚ) else q) a c = a := by
  induction a generalizing c with
  | nil => cases c <;> simp
  | cons x t ih =>
    cases c with
    | nil => simp at hlen
    | cons i ci =>
      have hi : i ≠ 0 := h i (by simp)
      simp only [List.zipWith_cons_cons, if_neg hi]
      rw [ih ci (by simpa using hlen) (fun j hj => h j (by simp [hj]))]

/-- Masking with everywhere-zero answer positions yields an all-ones row. -/
lemma zipWith_mask_zero_prod (a : List ℚ) (c : List ℕ) (h : ∀ i ∈ c, i = 0) :
    (List.zipWith (fun q i => if i = 0 then (1 : ℚ) else q) a c).prod = 1 := by
  induction a generalizing c with
  | nil => simp
  | cons x t ih =>
    cases c with
    | nil => simp
    | cons i ci =>
      have hi : i = 0 := h i (by simp)
      simp only [List.zipWith_cons_cons, if_pos hi, List.prod_cons, one_mul]
      exact ih ci (fun j hj => h j (by simp [hj]))

/-- Under the packed row invariant, the masked-scatter product equals the
product of the turn's real KC probabilities. -/
lemma packedRow_prod {p : List ℚ} {idxs : List ℕ} {ps : List ℚ}
    (h : packedRowOK p idxs ps = true) :
    (List.zipWith (fun q i => if i = 0 then (1 : ℚ) else q) p idxs).prod = ps.prod := by
  simp only [packedRowOK, Bool.and_eq_true, beq_iff_eq, List.all_eq_true, bne_iff_ne,
    ne_eq] at h
  obtain ⟨⟨⟨hlen, htake⟩, h1⟩, h2⟩ := h
  have hmin : min ps.length p.length = ps.length := by
    simpa using congrArg List.length htake
  have hnp : ps.length ≤ p.length := hmin ▸ Nat.min_le_right ps.length p.length
  have e0 : List.zipWith (fun q i => if i = 0 then (1 : ℚ) else q) p idxs
      = List.zipWith (fun q i => if i = 0 then (1 : ℚ) else q)
          (p.take ps.length ++ p.drop ps.length)
          (idxs.take ps.length ++ idxs.drop ps.length) := by
    rw [List.take_append_drop, List.take_append_drop]
  have e1 : List.zipWith (fun q i => if i = 0 then (1 : ℚ) else q)
        (p.take ps.length) (idxs.take ps.length) = p.take ps.length :=
    zipWith_mask_nonzero _ _ (by simp [List.length_take, hlen]) h1
  rw [e0, List.zipWith_append _ _ _ _ _ (by simp [List.length_take, hlen]),
    List.prod_append, e1, htake, zipWith_mask_zero_prod _ _ h2, mul_one]

/-- Under the packed batch invariant, the per-row masked products are the
per-group products. -/
lemma packedBatch_corr : ∀ (P : List (List ℚ)) (I : List (List ℕ)) (G : List (List ℚ)),
    packedBatchOK P I G = true →
    (List.zipWith
      (fun probs idxs => List.zipWith (fun q i => if i = 0 then (1 : ℚ) else q) probs idxs)
      P I).map List.prod = G.map List.prod := by
  intro P
  induction P with
  | nil => intro I G h; cases I <;> cases G <;> simp_all [packedBatchOK]
  | cons p pt ih =>
    intro I G h
    cases I with
    | nil => simp [packedBatchOK] at h
    | cons i it =>
      cases G with
      | nil => simp [packedBatchOK] at h
      | cons g gt =>
        simp only [packedBatchOK, Bool.and_eq_true] at h
        simp only [List.zipWith_cons_cons, List.map_cons]
        rw [packedRow_prod h.1, ih it gt h.2]

/-- Slicing a flattened group list by the group lengths recovers the
groups. -/
lemma sliceGroups_flatten : ∀ (g : List (List ℚ)),
    sliceGroups g.flatten (g.map List.length) = g := by
  intro g
  induction g with
  | nil => simp [sliceGroups]
  | cons a t ih =>
    simp only [List.flatten_cons, List.map_cons, sliceGroups, List.take_left, List.drop_left]
    rw [ih]

/-- Claim C2.  Packed vs unpacked aggregator equivalence: for every batch
whose underlying per-(turn, KC) probabilities are the same (the packed
probability grid satisfies the collator invariant packedBatchOK against the
per-turn probability groups g, while the unpacked variant receives the same
groups flattened, with their lengths as num_kcs), both aggregators produce
identical per-turn correctness probabilities and identical BCE loss - for
every logarithm routine, hence exactly rather than merely within
floating-point tolerance. -/
theorem claimC2 (model_probs : List (List ℚ) → List (List ℕ) → List (List ℚ))
    (g : List (List ℚ)) (batch : LMKTPackedBatch)
    (hrows : packedBatchOK
      (model_probs (batch.attention_mask.map (List.map invertAttentionEntry)) batch.last_idxs)
      batch.last_idxs g = true) (lg : ℚ → ℚ) :
    (get_lmkt_loss_packed model_probs lg batch).1.corr_probs =
      (get_lmkt_loss_unpacked lg g.flatten (g.map List.length) batch.labels).corr_probs ∧
    (get_lmkt_loss_packed model_probs lg batch).1.loss =
      (get_lmkt_loss_unpacked lg g.flatten (g.map List.length) batch.labels).loss := by
  constructor
  · simp only [get_lmkt_loss_packed, get_lmkt_loss_unpacked]
    rw [packedBatch_corr _ _ _ hrows, sliceGroups_flatten]
  · simp only [get_lmkt_loss_packed, get_lmkt_loss_unpacked]
    rw [packedBatch_corr _ _ _ hrows, sliceGroups_flatten]

/-- Witness for claim C2 at a concrete batch. -/
theorem claimC2_witness :
    packedBatchOK
      (c2mp (c2batch.attention_mask.map (List.map invertAttentionEntry)) c2batch.last_idxs)
      c2batch.last_idxs c2g = true ∧
    (get_lmkt_loss_packed c2mp (fun q => q) c2batch).1.corr_probs =
      (get_lmkt_loss_unpacked (fun q => q) c2g.flatten (c2g.map List.length)
        c2batch.labels).corr_probs :=
  ⟨by decide, (claimC2 c2mp c2g c2batch (by decide) (fun q => q)).1⟩

/-- The product of a mapIdx rewrite whose function always yields 1. -/
lemma mapIdx_one_prod : ∀ (l : List ℚ) (f : ℕ → ℚ → ℚ), (∀ i p, f i p = 1) →
    (List.mapIdx f l).prod = 1 := by
  intro l
  induction l with
  | nil => intro f _; simp
  | cons a t ih =>
    intro f hf
    rw [List.mapIdx_cons, List.prod_cons, hf, one_mul]
    exact ih _ (fun i p => hf (i + 1) p)

/-- The arange-mask product reduction: rewriting entries at positions at or
beyond n to 1 and taking the product equals the product of the first n
entries. -/
lemma mapIdx_mask_prod : ∀ (l : List ℚ) (n : ℕ),
    (List.mapIdx (fun k p => if n ≤ k then (1 : ℚ) else p) l).prod = (l.take n).prod := by
  intro l
  induction l with
  | nil => intro n; simp
  | cons a t ih =>
    intro n
    rw [List.mapIdx_cons]
    cases n with
    | zero =>
      rw [if_pos (Nat.le_refl 0), List.take_zero, List.prod_nil, List.prod_cons, one_mul]
      exact mapIdx_one_prod t _ (fun i p => by simp)
    | succ m =>
      rw [if_neg (by omega), List.take_succ_cons, List.prod_cons, List.prod_cons]
      congr 1
      have e : (fun i p => if m + 1 ≤ i + 1 then (1 : ℚ) else p)
          = (fun i p => if m ≤ i then (1 : ℚ) else p) := by
        funext i p
        simp [Nat.succ_le_succ_iff]
      rw [e, ih]

/-- Claim C5.  The correctness-probability product reduction in all three
reductions: for a turn with KC probabilities ps the unpacked aggregator
yields the product of ps; appending m neutral probability-1 slots (the
unpacked padding picture) leaves it unchanged; if 0 is among the
probabilities the result is exactly 0.  The packed aggregator yields the same
product for every probability/answer-position row satisfying the collator
invariant; appending padded slots (answer position 0, arbitrary probability)
preserves that invariant, so padding never changes the packed correctness
probability either, and a zero KC probability again forces 0.  The baseline
reduction gathers the next turn's KC probabilities, rewrites slots at or
beyond the real KC count (here: appended padding identifiers extra_ids) to 1,
and yields exactly the product of the gathered real-KC probabilities, with
the same zero-annihilation. -/
theorem claimC5 (lg : ℚ → ℚ) (ps P extra : List ℚ) (idxs : List ℕ) (m : ℕ)
    (labels lab2 : List ℚ) (am : List (List ℚ)) (yt ylast : List ℚ)
    (ids extra_ids pad_ids : List ℕ) (n0 : ℕ) (l0 l1 : ℤ) (te : List (List ℕ))
    (hrow : packedRowOK P idxs ps = true) :
    ((get_lmkt_loss_unpacked lg ps [ps.length] labels).corr_probs = [ps.prod] ∧
     (get_lmkt_loss_unpacked lg (ps ++ List.replicate m 1) [ps.length + m]
        labels).corr_probs = [ps.prod] ∧
     (0 ∈ ps → (get_lmkt_loss_unpacked lg ps [ps.length] labels).corr_probs = [0])) ∧
    ((get_lmkt_loss_packed (fun _ _ => [P]) lg
        ⟨am, [idxs], [ps.length], lab2⟩).1.corr_probs = [ps.prod] ∧
     packedRowOK (P ++ extra) (idxs ++ List.replicate extra.length 0) ps = true ∧
     (0 ∈ ps → (get_lmkt_loss_packed (fun _ _ => [P]) lg
        ⟨am, [idxs], [ps.length], lab2⟩).1.corr_probs = [0])) ∧
    ((get_baseline_loss lg [[yt, ylast]]
        ⟨[[pad_ids, ids ++ extra_ids]], [[n0, ids.length]], [[l0, l1]], te⟩).2 =
          [[(ids.map (fun id => yt.getD id 0)).prod]] ∧
     (0 ∈ ids.map (fun id => yt.getD id 0) →
       (get_baseline_loss lg [[yt, ylast]]
        ⟨[[pad_ids, ids ++ extra_ids]], [[n0, ids.length]], [[l0, l1]], te⟩).2 = [[0]])) := by
  have hu1 : (get_lmkt_loss_unpacked lg ps [ps.length] labels).corr_probs = [ps.prod] := by
    simp [get_lmkt_loss_unpacked, sliceGroups, List.take_length]
  have hu2 : (get_lmkt_loss_unpacked lg (ps ++ List.replicate m 1) [ps.length + m]
      labels).corr_probs = [ps.prod] := by
    have hlen : ps.length + m = (ps ++ List.replicate m (1 : ℚ)).length := by simp
    have e : (ps ++ List.replicate m (1 : ℚ)).take (ps.length + m)
        = ps ++ List.replicate m 1 := by rw [hlen, List.take_length]
    simp [get_lmkt_loss_unpacked, sliceGroups, e, List.prod_append, List.prod_replicate]
  have hp1 : (get_lmkt_loss_packed (fun _ _ => [P]) lg
      ⟨am, [idxs], [ps.length], lab2⟩).1.corr_probs = [ps.prod] := by
    simp only [get_lmkt_loss_packed, List.zipWith_cons_cons, List.zipWith_nil_right,
      List.map_cons, List.map_nil]
    rw [packedRow_prod hrow]
  have hp2 : packedRowOK (P ++ extra) (idxs ++ List.replicate extra.length 0) ps = true := by
    have h' := hrow
    simp only [packedRowOK, Bool.and_eq_true, beq_iff_eq, List.all_eq_true, bne_iff_ne,
      ne_eq] at h' ⊢
    obtain ⟨⟨⟨hlen, htake⟩, h1⟩, h2⟩ := h'
    have hmin : min ps.length P.length = ps.length := by
      simpa using congrArg List.length htake
    have hnp : ps.length ≤ P.length := hmin ▸ Nat.min_le_right ps.length P.length
    refine ⟨⟨⟨by simp [hlen], ?_⟩, ?_⟩, ?_⟩
    · rw [List.take_append_of_le_length hnp, htake]
    · rw [List.take_append_of_le_length (hlen ▸ hnp)]
      exact h1
    · intro i hi
      rw [List.drop_append_of_le_length (hlen ▸ hnp)] at hi
      rcases List.mem_append.mp hi with hL | hR
      · exact h2 i hL
      · exact List.eq_of_mem_replicate hR
  have hb1 : (get_baseline_loss lg [[yt, ylast]]
      ⟨[[pad_ids, ids ++ extra_ids]], [[n0, ids.length]], [[l0, l1]], te⟩).2 =
        [[(ids.map (fun id => yt.getD id 0)).prod]] := by
    have e2 : (List.map (fun id => yt.getD id 0) (ids ++ extra_ids)).take ids.length
        = List.map (fun id => yt.getD id 0) ids := by
      rw [List.map_append]
      have e3 : ids.length = (List.map (fun id => yt.getD id 0) ids).length := by simp
      rw [e3, List.take_left]
    simp only [get_baseline_loss, zipWith3, List.map_cons, List.map_nil, List.dropLast,
      List.drop_succ_cons, List.drop_zero]
    rw [mapIdx_mask_prod, e2]
  refine ⟨⟨hu1, hu2, fun h0 => ?_⟩, ⟨hp1, hp2, fun h0 => ?_⟩, ⟨hb1, fun h0 => ?_⟩⟩
  · rw [hu1, List.prod_eq_zero h0]
  · rw [hp1, List.prod_eq_zero h0]
  · rw [hb1, List.prod_eq_zero h0]

/-- Witness for claim C5 at concrete inputs, with a zero among the KC
probabilities. -/
theorem claimC5_witness :
    packedRowOK [2, 0, 5] [3, 4, 0] [2, 0] = true ∧
    (0 : ℚ) ∈ [(2 : ℚ), 0] ∧
    (get_lmkt_loss_unpacked (fun q => q) [2, 0] [2] [1]).corr_probs = [0] ∧
    (get_lmkt_loss_packed (fun _ _ => [[2, 0, 5]]) (fun q => q)
      ⟨[[1]], [[3, 4, 0]], [2], [1]⟩).1.corr_probs = [0] ∧
    (get_baseline_loss (fun q => q) [[[2, 0], [5, 5]]]
      ⟨[[[0], [0, 1] ++ [0]]], [[0, 2]], [[-100, 1]], [[0, 0]]⟩).2 = [[0]] :=
  have h := claimC5 (fun q => q) [2, 0] [2, 0, 5] [7] [3, 4, 0] 1 [1] [1] [[1]]
    [2, 0] [5, 5] [0, 1] [0] [0] 0 (-100) 1 [[0, 0]] (by decide)
  ⟨by decide, by decide, h.1.2.2 (by decide), h.2.1.2.2 (by decide), h.2.2.2 (by decide)⟩

/-- getD through a map, inside the mapped list's bounds. -/
lemma getD_map {α β : Type} (f : α → β) (l : List α) (i : ℕ) (da : α) (db : β)
    (h : i < l.length) : (l.map f).getD i db = f (l.getD i da) := by
  induction l generalizing i with
  | nil => simp at h
  | cons a t ih =>
    cases i with
    | zero => simp [List.getD_cons_zero]
    | succ n =>
      simp only [List.map_cons, List.getD_cons_succ]
      exact ih n (by simpa using h)

/-- getD through zipWith3, inside all three bounds. -/
lemma getD_zipWith3 {α β γ δ : Type} (f : α → β → γ → δ) (la : List α) (lb : List β)
    (lc : List γ) (i : ℕ) (da : α) (db : β) (dc : γ) (dd : δ)
    (ha : i < la.length) (hb : i < lb.length) (hc : i < lc.length) :
    (zipWith3 f la lb lc).getD i dd = f (la.getD i da) (lb.getD i db) (lc.getD i dc) := by
  induction la generalizing lb lc i with
  | nil => simp at ha
  | cons a ta ih =>
    cases lb with
    | nil => simp at hb
    | cons b tb =>
      cases lc with
      | nil => simp at hc
      | cons c tc =>
        cases i with
        | zero => simp [zipWith3, List.getD_cons_zero]
        | succ n =>
          simp only [zipWith3, List.getD_cons_succ]
          exact ih tb tc n (by simpa using ha) (by simpa using hb) (by simpa using hc)

/-- The length of zipWith3 is the minimum of the three lengths. -/
lemma zipWith3_length {α β γ δ : Type} (f : α → β → γ → δ) :
    ∀ (la : List α) (lb : List β) (lc : List γ),
      (zipWith3 f la lb lc).length = min la.length (min lb.length lc.length) := by
  intro la
  induction la with
  | nil => intro lb lc; simp [zipWith3]
  | cons a ta ih =>
    intro lb lc
    cases lb with
    | nil => simp [zipWith3]
    | cons b tb =>
      cases lc with
      | nil => simp [zipWith3]
      | cons c tc =>
        simp only [zipWith3, List.length_cons, ih tb tc]
        omega

/-- getD through drop. -/
lemma getD_drop {α : Type} (l : List α) (n i : ℕ) (d : α) :
    (l.drop n).getD i d = l.getD (n + i) d := by
  induction l generalizing n i with
  | nil => simp
  | cons a t ih =>
    cases n with
    | zero => simp
    | succ m =>
      simp only [List.drop_succ_cons, Nat.succ_add, List.getD_cons_succ]
      exact ih m i

/-- getD through dropLast, strictly before the last position. -/
lemma getD_dropLast {α : Type} (l : List α) (i : ℕ) (d : α) (h : i + 1 < l.length) :
    l.dropLast.getD i d = l.getD i d := by
  induction l generalizing i with
  | nil => simp at h
  | cons a t ih =>
    cases t with
    | nil => simp at h
    | cons b tb =>
      cases i with
      | zero => simp [List.getD_cons_zero]
      | succ n =>
        simp only [List.dropLast_cons₂, List.getD_cons_succ]
        exact ih n (by simpa using h)

/-- Claim C7.  In the flat-sequence baseline loss, (i) the correctness
probability produced at row b, position t is the product, over the first
num_kcs[b][t+1] KC identifiers of turn t+1, of the output probabilities that
turn t's output row assigns to those identifiers - i.e. the output sequence
is matched one position ahead against the labels and KC identifiers; (ii) the
result depends on y only through the rows with their last position dropped,
so the very last position's output is discarded; (iii) the BCE loss is taken
over exactly the flattened positions whose (shifted) label is not the ignore
sentinel -100. -/
theorem claimC7 (lg : ℚ → ℚ) (y y2 : List (List (List ℚ))) (batch : BaselineBatch)
    (b t : ℕ)
    (hyb : y.length = batch.kc_ids.length)
    (hnb : batch.num_kcs.length = batch.kc_ids.length)
    (hb : b < batch.kc_ids.length)
    (hL : (y.getD b []).length = (batch.kc_ids.getD b []).length)
    (hnL : (batch.num_kcs.getD b []).length = (batch.kc_ids.getD b []).length)
    (ht : t + 1 < (batch.kc_ids.getD b []).length)
    (hsame : y.map List.dropLast = y2.map List.dropLast) :
    ((get_baseline_loss lg y batch).2.getD b []).getD t 0 =
      ((((batch.kc_ids.getD b []).getD (t + 1) []).take
          ((batch.num_kcs.getD b []).getD (t + 1) 0)).map
        (fun id => ((y.getD b []).getD t []).getD id 0)).prod ∧
    get_baseline_loss lg y batch = get_baseline_loss lg y2 batch ∧
    (get_baseline_loss lg y batch).1 =
      bceLoss lg
        ((((batch.labels.map (fun r => r.drop 1)).flatten.zip
            (get_baseline_loss lg y batch).2.flatten).filter
              (fun pr => pr.1 != -100)).map Prod.snd)
        ((((batch.labels.map (fun r => r.drop 1)).flatten.zip
            (get_baseline_loss lg y batch).2.flatten).filter
              (fun pr => pr.1 != -100)).map (fun pr => ((pr.1 : ℤ) : ℚ))) := by
  refine ⟨?_, ?_, rfl⟩
  · simp only [get_baseline_loss]
    have hylen : (y.map List.dropLast).length = batch.kc_ids.length := by simp [hyb]
    have hrowlen : b < (zipWith3
        (fun yb idsb nb =>
          zipWith3
            (fun yt ids n =>
              List.mapIdx (fun k p => if n ≤ k then (1 : ℚ) else p)
                (ids.map (fun id => yt.getD id 0)))
            yb (idsb.drop 1) (nb.drop 1))
        (y.map List.dropLast) batch.kc_ids batch.num_kcs).length := by
      rw [zipWith3_length]
      omega
    rw [getD_map _ _ b [] [] hrowlen,
      getD_zipWith3 _ _ _ _ b [] [] [] [] (by omega) hb (by omega)]
    rw [getD_map List.dropLast y b [] [] (by omega)]
    have hinlen : t < (zipWith3
        (fun yt ids n =>
          List.mapIdx (fun k p => if n ≤ k then (1 : ℚ) else p)
            (ids.map (fun id => yt.getD id 0)))
        (y.getD b []).dropLast ((batch.kc_ids.getD b []).drop 1)
        ((batch.num_kcs.getD b []).drop 1)).length := by
      rw [zipWith3_length]
      simp only [List.length_dropLast, List.length_drop]
      omega
    rw [getD_map List.prod _ t [] 0 hinlen,
      getD_zipWith3 _ _ _ _ t [] [] 0 [] ?_ ?_ ?_]
    · rw [getD_dropLast _ t [] (by omega), getD_drop, getD_drop, Nat.add_comm 1 t,
        mapIdx_mask_prod, ← List.map_take]
    · simp only [List.length_dropLast]
      omega
    · simp only [List.length_drop]
      omega
    · simp only [List.length_drop]
      omega
  · simp only [get_baseline_loss]
    rw [hsame]

/-- Witness for claim C7 at a concrete one-row, two-turn batch. -/
theorem claimC7_witness :
    ((get_baseline_loss (fun q => q) [[[2, 3], [5, 7]]]
        ⟨[[[0, 0], [1, 0]]], [[2, 1]], [[-100, 1]], [[0, 0]]⟩).2.getD 0 []).getD 0 0 =
      (((([[[0, 0], [1, 0]]].getD 0 []).getD 1 []).take 1).map
        (fun id => (([[[2, 3], [5, 7]]].getD 0 []).getD 0 []).getD id 0)).prod :=
  (claimC7 (fun q => q) [[[2, 3], [5, 7]]] [[[2, 3], [9, 9]]]
    ⟨[[[0, 0], [1, 0]]], [[2, 1]], [[-100, 1]], [[0, 0]]⟩ 0 0
    (by decide) (by decide) (by decide) (by decide) (by decide) (by decide) (by decide)).1

/-- Claim C8, counterexample.  The claim says every path reaching model
construction or adapter dispatch - including the test_baseline evaluation
loop - raises a clear configuration error for an unsupported identifier.  For
the identifier gpt the test_baseline loop constructs no model (gpt is not in
BASELINE_MODELS) and matches neither trivial policy, so its first iteration
crashes reading the never-assigned loss variable - an unbound-local error,
not the configuration error the dispatch functions raise. -/
theorem claimC8_counterexample :
    test_baseline_step (fun q => q) [] 0 [] 0 ("gpt") ⟨[], [], [], []⟩ ⟨[], [], [], []⟩ =
      Except.error nameErrorLoss ∧
    nameErrorLoss ≠ ("Model " ++ "gpt" ++ " not supported") := by
  constructor
  · rfl
  · decide

/-- Claim C8, amended.  For every model-type identifier outside the supported
set, get_baseline_model and compute_baseline_loss fail immediately with the
clear configuration error Exception("Model ... not supported"); the
test_baseline evaluation loop, for an identifier that is also neither
"random" nor "majority", neither constructs a model nor falls back to any
default - it crashes on the first batch reading the unbound local loss
variable, which is immediate and loud but an unbound-local error rather than
a configuration error. -/
theorem claimC8 (model_type : String)
    (h1 : model_type ∉ BASELINE_MODELS) (h2 : model_type ≠ "random")
    (h3 : model_type ≠ "majority") :
    get_baseline_model model_type =
      Except.error ("Model " ++ model_type ++ " not supported") ∧
    (∀ lg model_y rasch_loss batch,
      compute_baseline_loss lg model_y rasch_loss model_type batch =
        Except.error ("Model " ++ model_type ++ " not supported")) ∧
    (∀ lg model_y rasch_loss random_vals majority batch acc,
      test_baseline_step lg model_y rasch_loss random_vals majority model_type batch acc =
        Except.error nameErrorLoss) := by
  have hmem := h1
  simp only [BASELINE_MODELS, List.mem_cons, List.not_mem_nil, or_false] at hmem
  push_neg at hmem
  obtain ⟨e1, e2, e3, e4, e5, e6, e7⟩ := hmem
  refine ⟨?_, fun lg my rl bt => ?_, fun lg my rl rv mj bt acc => ?_⟩
  · simp [get_baseline_model, e1, e2, e3, e4, e5, e6, e7]
  · simp [compute_baseline_loss, e1, e2, e3, e4, e5, e6, e7]
  · simp [test_baseline_step, h1, h2, h3]

/-- Witness for claim C8 at the concrete unsupported identifier gpt. -/
theorem claimC8_witness :
    ("gpt" ∉ BASELINE_MODELS) ∧
    get_baseline_model ("gpt") = Except.error ("Model " ++ "gpt" ++ " not supported") ∧
    test_baseline_step (fun q => q) [] 0 [] 0 ("gpt") ⟨[], [], [], []⟩ ⟨[], [], [], []⟩ =
      Except.error nameErrorLoss :=
  ⟨by decide,
   (claimC8 ("gpt") (by decide) (by decide) (by decide)).1,
   (claimC8 ("gpt") (by decide) (by decide) (by decide)).2.2
     (fun q => q) [] 0 [] 0 ⟨[], [], [], []⟩ ⟨[], [], [], []⟩⟩

/-- foldl Nat.max is bounded by any bound on the seed and the elements. -/
lemma foldl_max_le {c : ℕ} : ∀ (l : List ℕ) (a : ℕ), a ≤ c → (∀ x ∈ l, x ≤ c) →
    l.foldl Nat.max a ≤ c := by
  intro l
  induction l with
  | nil =>
    intro a ha _
    simpa using ha
  | cons x t ih =>
    intro a ha h
    simp only [List.foldl_cons]
    exact ih (Nat.max a x) (Nat.max_le.mpr ⟨ha, h x (by simp)⟩)
      (fun y hy => h y (by simp [hy]))

/-- The seed is below foldl Nat.max. -/
lemma le_foldl_max : ∀ (l : List ℕ) (a : ℕ), a ≤ l.foldl Nat.max a := by
  intro l
  induction l with
  | nil => intro a; simp
  | cons x t ih =>
    intro a
    simp only [List.foldl_cons]
    exact le_trans (Nat.le_max_left a x) (ih (Nat.max a x))

/-- Every element is below foldl Nat.max. -/
lemma mem_le_foldl_max : ∀ (l : List ℕ) (a : ℕ), ∀ x ∈ l, x ≤ l.foldl Nat.max a := by
  intro l
  induction l with
  | nil =>
    intro a x hx
    simp at hx
  | cons y t ih =>
    intro a x hx
    simp only [List.foldl_cons]
    rcases List.mem_cons.mp hx with h | h
    · subst h
      exact le_trans (Nat.le_max_right a x) (le_foldl_max t (Nat.max a x))
    · exact ih (Nat.max a y) x h

/-- foldl Nat.max is the seed or an element. -/
lemma foldl_max_mem : ∀ (l : List ℕ) (a : ℕ), l.foldl Nat.max a = a ∨ l.foldl Nat.max a ∈ l := by
  intro l
  induction l with
  | nil => intro a; left; rfl
  | cons x t ih =>
    intro a
    simp only [List.foldl_cons]
    rcases ih (Nat.max a x) with h | h
    · rcases Nat.le_total a x with hax | hxa
      · right
        have hmx : Nat.max a x = x := Nat.max_eq_right hax
        rw [h, hmx]
        exact List.mem_cons_self x t
      · left
        have hmx : Nat.max a x = a := Nat.max_eq_left hxa
        rw [h, hmx]
    · right
      exact List.mem_cons_of_mem x h

/-- Flattening a per-row mapped grid is mapping the flattened grid. -/
lemma flatten_map_map {α β : Type} (f : α → β) : ∀ (t : List (List α)),
    (t.map (List.map f)).flatten = t.flatten.map f := by
  intro t
  induction t with
  | nil => simp
  | cons r rt ih =>
    simp only [List.map_cons, List.flatten_cons, List.map_append, ih]

/-- A positive tensor maximum is attained by some entry. -/
lemma tensorMax_attained {t : List (List ℕ)} (h : 0 < tensorMax t) :
    tensorMax t ∈ t.flatten := by
  rcases foldl_max_mem t.flatten 0 with h0 | hmem
  · rw [tensorMax] at h
    omega
  · exact hmem

/-- The clipped-increment rewrite of the turn-end tensor keeps its maximum:
entries are clipped at the previous maximum, and the previous maximum entry
maps to itself. -/
lemma tensorMax_shift {t : List (List ℕ)} (h : 0 < tensorMax t) :
    tensorMax (shiftTurnEnd t) = tensorMax t := by
  have hflat : (shiftTurnEnd t).flatten
      = t.flatten.map (fun x => Nat.min (x + 1) (tensorMax t)) := flatten_map_map _ t
  apply Nat.le_antisymm
  · show (shiftTurnEnd t).flatten.foldl Nat.max 0 ≤ tensorMax t
    rw [hflat]
    refine foldl_max_le _ 0 (Nat.zero_le _) (fun x hx => ?_)
    rcases List.mem_map.mp hx with ⟨y, _, rfl⟩
    exact Nat.min_le_right _ _
  · show tensorMax t ≤ (shiftTurnEnd t).flatten.foldl Nat.max 0
    rw [hflat]
    refine mem_le_foldl_max _ 0 _ ?_
    exact List.mem_map.mpr ⟨tensorMax t, tensorMax_attained h, Nat.min_eq_right (by omega)⟩

/-- Claim C10.  Neither get_lmkt_loss_packed nor
select_flat_baseline_out_vectors (with the shift flag) is pure in its batch:
the packed aggregator overwrites the batch's 0/1 attention-mask entries with
the additive-mask values (a 1 becomes 0 on the first call), so the returned
batch differs from the input, and a second call on the returned batch
operates on the already-transformed mask (the same entry then becomes
finfo_min, not the additive image of the original 0/1 value); the shift
overwrites the batch's turn-end tensor with clipped incremented indices (an
unclipped entry e becomes e+1), so the returned batch again differs, and a
second call increments the already-shifted tensor (the entry becomes e+2). -/
theorem claimC10 (mp : List (List ℚ) → List (List ℕ) → List (List ℚ)) (lg : ℚ → ℚ)
    (y : List (List (List ℚ))) (b : LMKTPackedBatch) (bb : BaselineBatch) (i j k l : ℕ)
    (hm : (b.attention_mask.getD i []).getD j 2 = 1)
    (hk : k < bb.turn_end_idxs.length)
    (hl : l < (bb.turn_end_idxs.getD k []).length)
    (he : (bb.turn_end_idxs.getD k []).getD l 0 + 1 < tensorMax bb.turn_end_idxs) :
    (((get_lmkt_loss_packed mp lg b).2.attention_mask.getD i []).getD j 2 = 0 ∧
     (get_lmkt_loss_packed mp lg b).2.attention_mask ≠ b.attention_mask ∧
     ((get_lmkt_loss_packed mp lg
         (get_lmkt_loss_packed mp lg b).2).2.attention_mask.getD i []).getD j 2 = finfo_min ∧
     (get_lmkt_loss_packed mp lg (get_lmkt_loss_packed mp lg b).2).2.attention_mask ≠
       (get_lmkt_loss_packed mp lg b).2.attention_mask) ∧
    (((select_flat_baseline_out_vectors y bb true).2.turn_end_idxs.getD k []).getD l 0 =
       (bb.turn_end_idxs.getD k []).getD l 0 + 1 ∧
     (select_flat_baseline_out_vectors y bb true).2.turn_end_idxs ≠ bb.turn_end_idxs ∧
     ((select_flat_baseline_out_vectors y
         (select_flat_baseline_out_vectors y bb true).2 true).2.turn_end_idxs.getD k []).getD
           l 0 =
       (bb.turn_end_idxs.getD k []).getD l 0 + 2 ∧
     (select_flat_baseline_out_vectors y
         (select_flat_baseline_out_vectors y bb true).2 true).2.turn_end_idxs ≠
       (select_flat_baseline_out_vectors y bb true).2.turn_end_idxs) := by
  have hstate : ∀ B : LMKTPackedBatch, (get_lmkt_loss_packed mp lg B).2 =
      { B with attention_mask := B.attention_mask.map (List.map invertAttentionEntry) } :=
    fun B => rfl
  have hshift : ∀ BB : BaselineBatch, (select_flat_baseline_out_vectors y BB true).2 =
      { BB with turn_end_idxs := shiftTurnEnd BB.turn_end_idxs } :=
    fun BB => rfl
  have hi : i < b.attention_mask.length := by
    by_contra hcon
    push_neg at hcon
    rw [List.getD_eq_default _ _ hcon] at hm
    simp only [List.getD_nil] at hm
    exact absurd hm (by norm_num)
  have hj : j < (b.attention_mask.getD i []).length := by
    by_contra hcon
    push_neg at hcon
    rw [List.getD_eq_default _ _ hcon] at hm
    exact absurd hm (by norm_num)
  have hinv1 : invertAttentionEntry 1 = 0 := by
    norm_num [invertAttentionEntry]
  have hinv0 : invertAttentionEntry 0 = finfo_min := by
    norm_num [invertAttentionEntry]
  have hfne0 : finfo_min ≠ 0 := by
    norm_num [finfo_min]
  have hentry1 : ((get_lmkt_loss_packed mp lg b).2.attention_mask.getD i []).getD j 2 = 0 := by
    rw [hstate]
    rw [getD_map (List.map invertAttentionEntry) _ i [] [] hi,
      getD_map invertAttentionEntry _ j 2 2 hj, hm, hinv1]
  have hi1 : i < (get_lmkt_loss_packed mp lg b).2.attention_mask.length := by
    rw [hstate]
    simpa using hi
  have hj1 : j < ((get_lmkt_loss_packed mp lg b).2.attention_mask.getD i []).length := by
    rw [hstate]
    rw [getD_map (List.map invertAttentionEntry) _ i [] [] hi]
    simpa using hj
  have hentry2 : ((get_lmkt_loss_packed mp lg
      (get_lmkt_loss_packed mp lg b).2).2.attention_mask.getD i []).getD j 2 = finfo_min := by
    rw [hstate ((get_lmkt_loss_packed mp lg b).2)]
    rw [getD_map (List.map invertAttentionEntry) _ i [] [] hi1,
      getD_map invertAttentionEntry _ j 2 2 hj1, hentry1, hinv0]
  have hM : 0 < tensorMax bb.turn_end_idxs := by omega
  have hte1 : ((select_flat_baseline_out_vectors y bb true).2.turn_end_idxs.getD k []).getD l 0
      = (bb.turn_end_idxs.getD k []).getD l 0 + 1 := by
    rw [hshift]
    simp only [shiftTurnEnd]
    rw [getD_map (List.map (fun x => Nat.min (x + 1) (tensorMax bb.turn_end_idxs))) _ k [] [] hk,
      getD_map _ _ l 0 0 hl]
    exact Nat.min_eq_left (by omega)
  have hk1 : k < (select_flat_baseline_out_vectors y bb true).2.turn_end_idxs.length := by
    rw [hshift]
    simp only [shiftTurnEnd]
    simpa using hk
  have hl1 : l <
      ((select_flat_baseline_out_vectors y bb true).2.turn_end_idxs.getD k []).length := by
    rw [hshift]
    simp only [shiftTurnEnd]
    rw [getD_map (List.map (fun x => Nat.min (x + 1) (tensorMax bb.turn_end_idxs))) _ k [] [] hk]
    simpa using hl
  have htm1 : tensorMax (select_flat_baseline_out_vectors y bb true).2.turn_end_idxs
      = tensorMax bb.turn_end_idxs := by
    rw [hshift]
    exact tensorMax_shift hM
  have hte2 : ((select_flat_baseline_out_vectors y
      (select_flat_baseline_out_vectors y bb true).2 true).2.turn_end_idxs.getD k []).getD l 0
      = (bb.turn_end_idxs.getD k []).getD l 0 + 2 := by
    rw [hshift ((select_flat_baseline_out_vectors y bb true).2)]
    simp only [shiftTurnEnd]
    rw [getD_map (List.map (fun x => Nat.min (x + 1)
        (tensorMax (select_flat_baseline_out_vectors y bb true).2.turn_end_idxs))) _ k [] [] hk1,
      getD_map _ _ l 0 0 hl1, hte1, htm1]
    exact Nat.min_eq_left (by omega)
  refine ⟨⟨hentry1, ?_, hentry2, ?_⟩, ⟨hte1, ?_, hte2, ?_⟩⟩
  · intro hcontra
    have := congrArg (fun L : List (List ℚ) => (L.getD i []).getD j 2) hcontra
    simp only at this
    rw [hentry1, hm] at this
    exact absurd this (by norm_num)
  · intro hcontra
    have := congrArg (fun L : List (List ℚ) => (L.getD i []).getD j 2) hcontra
    simp only at this
    rw [hentry2, hentry1] at this
    exact absurd this hfne0
  · intro hcontra
    have := congrArg (fun L : List (List ℕ) => (L.getD k []).getD l 0) hcontra
    simp only at this
    rw [hte1] at this
    omega
  · intro hcontra
    have := congrArg (fun L : List (List ℕ) => (L.getD k []).getD l 0) hcontra
    simp only at this
    rw [hte2, hte1] at this
    omega

/-- Witness for claim C10 at a concrete packed batch (mask [[1, 0]]) and a
concrete baseline batch (turn-end tensor [[0, 2]]). -/
theorem claimC10_witness :
    ((⟨[[1, 0]], [[0]], [1], [1]⟩ :
        LMKTPackedBatch).attention_mask.getD 0 []).getD 0 2 = 1 ∧
    ((⟨[], [], [], [[0, 2]]⟩ :
        BaselineBatch).turn_end_idxs.getD 0 []).getD 0 0 + 1 <
      tensorMax (⟨[], [], [], [[0, 2]]⟩ : BaselineBatch).turn_end_idxs ∧
    ((get_lmkt_loss_packed (fun _ _ => []) (fun q => q)
        ⟨[[1, 0]], [[0]], [1], [1]⟩).2.attention_mask.getD 0 []).getD 0 2 = 0 ∧
    ((select_flat_baseline_out_vectors [] ⟨[], [], [], [[0, 2]]⟩
        true).2.turn_end_idxs.getD 0 []).getD 0 0 =
      (((⟨[], [], [], [[0, 2]]⟩ : BaselineBatch).turn_end_idxs.getD 0 []).getD 0 0) + 1 :=
  have h := claimC10 (fun _ _ => []) (fun q => q) [] ⟨[[1, 0]], [[0]], [1], [1]⟩
    ⟨[], [], [], [[0, 2]]⟩ 0 0 0 0 (by decide) (by decide) (by decide) (by decide)
  ⟨by decide, by decide, h.1.1, h.2.1⟩

/-- Zipping a list with a same-length constant list is mapping with the
constant second argument. -/
lemma zipWith_replicate_right {α β γ : Type} (f : α → β → γ) (c : β) :
    ∀ L : List α, List.zipWith f L (List.replicate L.length c) = L.map (fun x => f x c) := by
  intro L
  induction L with
  | nil => rfl
  | cons a t ih =>
    simp only [List.length_cons, List.replicate_succ, List.zipWith_cons_cons, List.map_cons, ih]

/-- Counting true over a boolean map is countP. -/
lemma count_true_map (L : List ℤ) (f : ℤ → Bool) : (L.map f).count true = L.countP f := by
  induction L with
  | nil => rfl
  | cons a t ih =>
    by_cases h : f a <;> simp [List.count_cons, List.countP_cons, h, ih]

/-- Recall is 100 percent when every prediction is the positive class and at
least one label is positive. -/
lemma recall_all_ones (L : List ℤ) (hpos : (1 : ℤ) ∈ L) :
    (precision_recall_fscore L (List.replicate L.length 1)).2.1 * 100 = 100 := by
  have hz1 : List.zipWith (fun l h => l == 1 && h == 1) L (List.replicate L.length (1 : ℤ))
      = L.map (fun l => l == 1) := by
    rw [zipWith_replicate_right]
    simp
  have hz3 : List.zipWith (fun l h => l == 1 && h != 1) L (List.replicate L.length (1 : ℤ))
      = L.map (fun _ => false) := by
    rw [zipWith_replicate_right]
    simp
  have hcnt : 0 < (L.map (fun l => l == 1)).count true := by
    rw [count_true_map]
    exact List.countP_pos_iff.mpr ⟨1, hpos, by simp⟩
  have hf0 : (L.map (fun _ : ℤ => false)).count true = 0 := by
    simp [List.count_eq_zero]
  have hne : (((L.map (fun l => l == 1)).count true : ℕ) : ℚ) ≠ 0 :=
    Nat.cast_ne_zero.mpr (Nat.pos_iff_ne_zero.mp hcnt)
  simp only [precision_recall_fscore]
  rw [hz1, hz3, hf0]
  simp only [Nat.cast_zero, add_zero]
  rw [if_neg hne, div_self hne, one_mul]

/-- The one-batch accumulation of the test_baseline loop under a constant
prediction fill: the all-turn labels gain the non-ignored labels in row-major
order, and the all-turn predictions gain the same number of copies of the
fill value. -/
lemma trivialAccum_all (fill : ℚ) (labels : List (List ℤ)) (acc : TestAccum) :
    (testBaselineBatchAccum labels (labels.map (fun r => r.map (fun _ => fill))) acc).all_labels
      = acc.all_labels ++ labels.flatten.filter (fun l => l != -100) ∧
    (testBaselineBatchAccum labels (labels.map (fun r => r.map (fun _ => fill))) acc).all_preds
      = acc.all_preds ++
          List.replicate (labels.flatten.filter (fun l => l != -100)).length fill := by
  have hflat : (labels.map (fun r => r.map (fun _ => fill))).flatten
      = labels.flatten.map (fun _ => fill) := flatten_map_map _ labels
  have hzip : labels.flatten.zip (labels.flatten.map (fun _ => fill))
      = labels.flatten.map (fun x => (x, fill)) := by
    induction labels.flatten with
    | nil => rfl
    | cons a t ih => simp only [List.map_cons, List.zip_cons_cons, ih]
  have hfil : (labels.flatten.map (fun x => (x, fill))).filter (fun p => p.1 != -100)
      = (labels.flatten.filter (fun l => l != -100)).map (fun x => (x, fill)) := by
    rw [List.filter_map]
    congr 1
  have hpairs : (labels.flatten.zip
        ((labels.map (fun r => r.map (fun _ => fill))).flatten)).filter (fun p => p.1 != -100)
      = (labels.flatten.filter (fun l => l != -100)).map (fun x => (x, fill)) := by
    rw [hflat, hzip, hfil]
  have hmapfst : ∀ l : List ℤ, (l.map (fun x : ℤ => (x, fill))).map Prod.fst = l := by
    intro l
    induction l with
    | nil => rfl
    | cons a t ih => simp only [List.map_cons, ih]
  have hmapsnd : ∀ l : List ℤ, (l.map (fun x : ℤ => (x, fill))).map Prod.snd
      = List.replicate l.length fill := by
    intro l
    induction l with
    | nil => rfl
    | cons a t ih => simp only [List.map_cons, List.length_cons, List.replicate_succ, ih]
  constructor
  · simp only [testBaselineBatchAccum]
    rw [hpairs, hmapfst]
  · simp only [testBaselineBatchAccum]
    rw [hpairs, hmapsnd]

/-- Along the test_baseline fold under a constant prediction fill, the
all-turn prediction list stays a constant list matching the all-turn label
count. -/
lemma majority_fold_inv (fill : ℚ) : ∀ (batches : List (List (List ℤ))) (acc : TestAccum),
    acc.all_preds = List.replicate acc.all_labels.length fill →
    (batches.foldl
      (fun acc2 rows =>
        testBaselineBatchAccum (rows.map (fun r => r.drop 1))
          ((rows.map (fun r => r.drop 1)).map (fun r => r.map (fun _ => fill))) acc2)
      acc).all_preds =
    List.replicate
      (batches.foldl
        (fun acc2 rows =>
          testBaselineBatchAccum (rows.map (fun r => r.drop 1))
            ((rows.map (fun r => r.drop 1)).map (fun r => r.map (fun _ => fill))) acc2)
        acc).all_labels.length fill := by
  intro batches
  induction batches with
  | nil => intro acc h; simpa using h
  | cons rows t ih =>
    intro acc h
    simp only [List.foldl_cons]
    refine ih _ ?_
    obtain ⟨hl, hp⟩ := trivialAccum_all fill (rows.map (fun r => r.drop 1)) acc
    rw [hp, h, ← List.replicate_add, hl, List.length_append]

/-- Claim C4, counterexample.  The majority policy reads
test_dataset.majority_class - a property of the TEST data - not the training
set's majority class: with training labels [1, 1, 0] (majority class 1) but a
test set whose labels have majority class 0, every test position is predicted
0, not 1, and recall is 0, not 100. -/
theorem claimC4_counterexample :
    majority_class [1, 1, 0] = 1 ∧
    (test_baseline_majority [[[-100, 0, 0, 1]]]).all_preds = [0, 0, 0] ∧
    (test_baseline_majority [[[-100, 0, 0, 1]]]).all_preds ≠ [1, 1, 1] ∧
    (precision_recall_fscore (test_baseline_majority [[[-100, 0, 0, 1]]]).all_labels
      ((test_baseline_majority [[[-100, 0, 0, 1]]]).all_preds.map npRound)).2.1 * 100 = 0 := by
  have hX : (test_baseline_majority [[[-100, 0, 0, 1]]]).all_labels = [0, 0, 1] := by decide
  have hP : (test_baseline_majority [[[-100, 0, 0, 1]]]).all_preds = [0, 0, 0] := by decide
  refine ⟨by decide, hP, ?_, ?_⟩
  · rw [hP]
    decide
  · rw [hX, hP]
    norm_num [precision_recall_fscore, npRound]

/-- Claim C4, amended.  When the majority baseline policy is evaluated, every
test position receives a constant prediction equal to the TEST dataset's
majority class (training.py 541 reads test_dataset.majority_class, where
test_dataset is built from the test split at line 522); in particular, with a
test-set majority class of 1 and at least one positive test label, every test
position is predicted 1 and recall is 100. -/
theorem claimC4 (batches : List (List (List ℤ)))
    (hmaj : majority_class batches.flatten.flatten = 1)
    (hpos : (1 : ℤ) ∈ (test_baseline_majority batches).all_labels) :
    (test_baseline_majority batches).all_preds =
      List.replicate (test_baseline_majority batches).all_labels.length 1 ∧
    (precision_recall_fscore (test_baseline_majority batches).all_labels
      ((test_baseline_majority batches).all_preds.map npRound)).2.1 * 100 = 100 := by
  have hone : npRound 1 = 1 := by
    norm_num [npRound]
  have h1 : (test_baseline_majority batches).all_preds =
      List.replicate (test_baseline_majority batches).all_labels.length 1 := by
    simp only [test_baseline_majority, hmaj, Int.cast_one]
    exact majority_fold_inv 1 batches ⟨[], [], [], []⟩ rfl
  refine ⟨h1, ?_⟩
  rw [h1, List.map_replicate, hone]
  exact recall_all_ones _ hpos

/-- Witness for claim C4 at a concrete test set with majority class 1. -/
theorem claimC4_witness :
    majority_class ([[[-100, 1, 1, 0]]] : List (List (List ℤ))).flatten.flatten = 1 ∧
    (1 : ℤ) ∈ (test_baseline_majority [[[-100, 1, 1, 0]]]).all_labels ∧
    (test_baseline_majority [[[-100, 1, 1, 0]]]).all_preds =
      List.replicate (test_baseline_majority [[[-100, 1, 1, 0]]]).all_labels.length 1 :=
  have h := claimC4 [[[-100, 1, 1, 0]]] (by decide) (by decide)
  ⟨by decide, by decide, h.1⟩

end DialogueKT
